import Mathlib

/-! Verification development for the ADK tutorial experiments.

Shallow embedding of the tool handlers of `experiments/*/main.go` and the
properties proved about them.

Conventions of the embedding:

* Go `int` is the 64-bit two's-complement integer: values are `Int`s in
  `[-2^63, 2^63)` and every arithmetic result is reduced by `wrapInt`.
* A Go `error` is `Option String`: `none` is the nil error, `some msg` an
  error whose message is `msg`.
* A run-time panic, a fatal run-time error (out of memory) and a loop that runs
  out of fuel are `none` of an `Option` result.
-/

/-! ## experiments/custom_tool/main.go -/

namespace CustomTool

/-- Reduction of a mathematical integer to the 64-bit two's-complement range,
the result of every Go `int` operation. -/
def wrapInt (x : Int) : Int := (x + 2 ^ 63) % 2 ^ 64 - 2 ^ 63

/-- Values a Go `int` can hold. -/
def IsInt (x : Int) : Prop := -(2 ^ 63) ≤ x ∧ x < 2 ^ 63

instance (x : Int) : Decidable (IsInt x) := by
  unfold IsInt; exact inferInstance

/-- Go struct `RollDiceInput`. -/
structure RollDiceInput where
  NumDice : Int
  Sides : Int
  deriving DecidableEq, Repr

/-- Go struct `RollDiceOutput`. -/
structure RollDiceOutput where
  Rolls : List Int
  Total : Int
  deriving DecidableEq, Repr

/-- Inputs the handler can receive: both fields are Go `int`s. -/
def RollDiceInput.WellFormed (input : RollDiceInput) : Prop :=
  IsInt input.NumDice ∧ IsInt input.Sides

instance (input : RollDiceInput) : Decidable input.WellFormed := by
  unfold RollDiceInput.WellFormed; exact inferInstance

/-- The random source: `src k n` is what the `k`-th call of `rand.Intn`
in the handler yields when its argument is `n`. -/
abbrev RandSource := Nat → Int → Int

/-- Contract of `math/rand.Intn`: for `n > 0` the value lies in `[0, n)`. -/
def RandSource.Valid (src : RandSource) : Prop :=
  ∀ k n, 0 < n → 0 ≤ src k n ∧ src k n < n

/-- Library call `rand.Intn(n)`: panics when `n <= 0`. -/
def randIntn (src : RandSource) (k : Nat) (n : Int) : Option Int :=
  if n ≤ 0 then none else some (src k n)

/-- Indexed store `rolls[i] = v`: panics when the index is out of range. -/
def setIndex (rolls : List Int) (i : Int) (v : Int) : Option (List Int) :=
  if 0 ≤ i ∧ i.toNat < rolls.length then some (rolls.set i.toNat v) else none

/-- The loop `for i := 0; i < input.NumDice; i++ { ... }` of `rollDiceHandler`,
started at loop variable `i` with the current `rolls` and `total`. One unit of
fuel is spent per iteration; `none` is a panic or fuel exhaustion. -/
def rollLoop (src : RandSource) (numDice sides : Int) :
    Nat → Int → List Int → Int → Option (List Int × Int)
  | 0, i, rolls, total => if i < numDice then none else some (rolls, total)
  | fuel + 1, i, rolls, total =>
    if i < numDice then
      match randIntn src i.toNat sides with
      | none => none
      | some r =>
        let roll := wrapInt (r + 1)
        match setIndex rolls i roll with
        | none => none
        | some rolls1 =>
          rollLoop src numDice sides fuel (wrapInt (i + 1)) rolls1 (wrapInt (total + roll))
    else some (rolls, total)

/-- Number of dice after the default is applied. The source comment speaks of
zero values; the test `<= 0` replaces every non-positive value. -/
def effNumDice (input : RollDiceInput) : Int :=
  if input.NumDice ≤ 0 then 1 else input.NumDice

/-- Number of sides after the default is applied. -/
def effSides (input : RollDiceInput) : Int :=
  if input.Sides ≤ 0 then 6 else input.Sides

/-- The value `rand.Intn(sides) + 1` computed by iteration `j` of the loop. -/
def rollAt (src : RandSource) (sides : Int) (j : Nat) : Int := wrapInt (src j sides + 1)

/-- Size of a Go `int` in bytes. -/
def intSize : Int := 8

/-- Run-time constant `maxAlloc`: the largest allocation in bytes, `2^48` on the
common 64-bit platforms (48 heap address bits). -/
def maxAlloc : Int := 2 ^ 48

/-- Built-in `make([]int, n)`. It panics ("makeslice: len out of range") when
`n` is negative or `n` elements take more than `maxAlloc` bytes, and the process
dies (out of memory) when `n` exceeds `memLimit`, the number of `int` elements
the process can still obtain; otherwise it yields `n` zeros. -/
def makeSlice (memLimit : Nat) (n : Int) : Option (List Int) :=
  if n < 0 ∨ maxAlloc < n * intSize then none
  else if (memLimit : Int) < n then none
  else some (List.replicate n.toNat (0 : Int))

/-- Handler `rollDiceHandler`, run in a process that can still obtain `memLimit`
elements of memory. -/
def rollDiceHandler (memLimit : Nat) (src : RandSource) (input : RollDiceInput) :
    Option RollDiceOutput :=
  let numDice := effNumDice input
  let sides := effSides input
  match makeSlice memLimit numDice with
  | none => none
  | some rolls =>
    match rollLoop src numDice sides numDice.toNat 0 rolls 0 with
    | none => none
    | some (rolls1, total) => some { Rolls := rolls1, Total := total }

/-- Spec side: `make` can provide a slice of `n` elements. -/
def CanAllocate (memLimit : Nat) (n : Int) : Prop :=
  0 ≤ n ∧ n * intSize ≤ maxAlloc ∧ n ≤ (memLimit : Int)

instance (memLimit : Nat) (n : Int) : Decidable (CanAllocate memLimit n) := by
  unfold CanAllocate; exact inferInstance

/-- The output the handler builds from the draws of the random source: the
rolls in call order and their wrapped sum. -/
def rolledOutput (src : RandSource) (input : RollDiceInput) : RollDiceOutput :=
  { Rolls := (List.range' 0 (effNumDice input).toNat).map (rollAt src (effSides input))
    Total := wrapInt ((List.range' 0 (effNumDice input).toNat).map
      (rollAt src (effSides input))).sum }

/-- Random source that always yields the largest admissible value. -/
def maxSource : RandSource := fun _ n => n - 1

/-- Two dice with the largest number of sides a Go `int` can hold. -/
def hugeDice : RollDiceInput := { NumDice := 2, Sides := 2 ^ 63 - 1 }

/-- A number of dice no slice can hold. -/
def tooManyDice : RollDiceInput := { NumDice := 2 ^ 62, Sides := 1 }

/-- Negative fields, which the handler replaces by its defaults. -/
def negativeDice : RollDiceInput := { NumDice := -5, Sides := -3 }

end CustomTool

/-! ## experiments/long_term_memory/main.go -/

namespace LongTermMemory

/-- Part of a content (`genai.Part`); only its `Text` is read by `recall`. Parts
are taken as present (no nil pointer in `Content.Parts`). -/
structure Part where
  Text : String
  deriving DecidableEq, Repr

/-- Content of a memory (`genai.Content`). -/
structure Content where
  Parts : List Part
  deriving DecidableEq, Repr

/-- One recalled memory (`memory.Entry`); `Content` is a pointer that may be nil. -/
structure Entry where
  Content : Option Content
  deriving DecidableEq, Repr

/-- Successful answer of the memory search (`memory.SearchResponse`). -/
structure SearchResponse where
  Memories : List Entry
  deriving DecidableEq, Repr

/-- Go struct `RecallArgs`. -/
structure RecallArgs where
  Query : String
  deriving DecidableEq, Repr

/-- Go struct `RecallResult`. -/
structure RecallResult where
  Memories : List String
  deriving DecidableEq, Repr

/-- Outcome of `ctx.SearchMemory(ctx, query)`: a response and a possibly nil error. -/
structure SearchOutcome where
  resp : SearchResponse
  err : Option String
  deriving DecidableEq, Repr

/-- The memory service seen from the tool context. -/
abbrev SearchMemory := String → SearchOutcome

/-- Inner loop `for _, p := range m.Content.Parts { text += p.Text }`,
started from the current `text`. -/
def appendParts : List Part → String → String
  | [], text => text
  | p :: rest, text => appendParts rest (text ++ p.Text)

/-- Outer loop `for i, m := range resp.Memories { ... }` of `recall`, started
from the current `memories` slice. -/
def recallLoop : List Entry → List String → List String
  | [], memories => memories
  | m :: rest, memories =>
    match m.Content with
    | none => recallLoop rest memories
    | some content =>
      let text := appendParts content.Parts ""
      if text != "" then recallLoop rest (memories ++ [text])
      else recallLoop rest memories

/-- Handler `recall` (the bare name is a reserved command word here, hence
`recallHandler`). The debug prints do not influence the result and are not
part of the embedding. -/
def recallHandler (search : SearchMemory) (args : RecallArgs) : RecallResult :=
  let out := search args.Query
  match out.err with
  | some err => { Memories := ["Error searching memory: " ++ err] }
  | none =>
    let memories := recallLoop out.resp.Memories []
    if memories.length = 0 then { Memories := ["No relevant memories found."] }
    else { Memories := memories }

/-- Spec side: the concatenation of the parts' `Text` in part order. -/
def concatText (content : Content) : String :=
  (content.Parts.map Part.Text).foldr (fun t acc => t ++ acc) ""

/-- Spec side: the text of a memory, absent when its content is nil or its
concatenated text is empty. -/
def fragmentOf (m : Entry) : Option String :=
  match m.Content with
  | none => none
  | some content => if concatText content = "" then none else some (concatText content)

/-- Spec side: the recalled fragments of a response, in memory order. -/
def fragments (resp : SearchResponse) : List String :=
  resp.Memories.filterMap fragmentOf

/-- A string contains another one as a contiguous piece. -/
def containsText (s w : String) : Prop := ∃ a b : String, s = a ++ w ++ b

/-- Memory holding the single sentence of the recall scenario. -/
def blueEntry : Entry :=
  { Content := some { Parts := [{ Text := "my favorite color is " }, { Text := "blue" }] } }

/-- Search service that answers every query with an empty entry, a nil-content
entry and the scenario entry. -/
def blueSearch : SearchMemory := fun _ =>
  { resp := { Memories := [{ Content := some { Parts := [] } }, { Content := none }, blueEntry] },
    err := none }

/-- Search service that finds nothing usable. -/
def emptySearch : SearchMemory := fun _ =>
  { resp := { Memories := [{ Content := none }, { Content := some { Parts := [{ Text := "" }] } }] },
    err := none }

end LongTermMemory

/-! ## The tool context (`google.golang.org/adk/tool`)

A handler talks to its environment only through calls on `tool.Context`, the
logger and standard output. A handler is embedded as a tree of such calls: each
node names the call and continues with whatever the call returns. Running the
tree against an implementation of the services threads the store through the
calls and records them in order. -/

namespace ToolContext

/-- Go value of type `any` held in the session state. -/
inductive Value
  | str (s : String)
  | int (n : Int)
  | bool (b : Bool)
  | null
  deriving DecidableEq, Repr

/-- Text part (`genai.Part` with only `Text` set). -/
structure Part where
  Text : String
  deriving DecidableEq, Repr

/-- Library function `genai.NewPartFromText`. -/
def NewPartFromText (text : String) : Part := { Text := text }

/-- One call made by a handler. -/
inductive Call
  | stateSet (key : String) (value : Value)
  | stateGet (key : String)
  | artifactsSave (name : String) (part : Part)
  | logPrintf (msg : String)
  | fmtPrintf (msg : String)
  deriving DecidableEq, Repr

/-- Handler body returning an `α`: a tree of calls, each continued with the
values the call returns (a Go `error` being `Option String`). -/
inductive Prog (α : Type)
  | ret (out : α)
  | stateSet (key : String) (value : Value) (k : Option String → Prog α)
  | stateGet (key : String) (k : Value → Option String → Prog α)
  | artifactsSave (name : String) (part : Part) (k : Int → Option String → Prog α)
  | logPrintf (msg : String) (k : Prog α)
  | fmtPrintf (msg : String) (k : Prog α)

/-- Implementation of the services behind a `tool.Context` over a store `σ`:
`ctx.State().Set`, `ctx.State().Get` and `ctx.Artifacts().Save` (which returns
the saved version and an error). -/
structure Services (σ : Type) where
  stateSet : String → Value → σ → Option String × σ
  stateGet : String → σ → Value × Option String
  artifactsSave : String → Part → σ → (Int × Option String) × σ

/-- What a run of a handler leaves behind: its output, the final store and the
calls it made, in order. -/
structure Outcome (α σ : Type) where
  out : α
  store : σ
  calls : List Call

/-- Run a handler body against the services, from store `st`. -/
def Prog.run {α σ : Type} (sv : Services σ) : Prog α → σ → Outcome α σ
  | .ret out, st => { out := out, store := st, calls := [] }
  | .stateSet key value k, st =>
    let res := sv.stateSet key value st
    let r := (k res.1).run sv res.2
    { r with calls := Call.stateSet key value :: r.calls }
  | .stateGet key k, st =>
    let res := sv.stateGet key st
    let r := (k res.1 res.2).run sv st
    { r with calls := Call.stateGet key :: r.calls }
  | .artifactsSave name part k, st =>
    let res := sv.artifactsSave name part st
    let r := (k res.1.1 res.1.2).run sv res.2
    { r with calls := Call.artifactsSave name part :: r.calls }
  | .logPrintf msg k, st =>
    let r := k.run sv st
    { r with calls := Call.logPrintf msg :: r.calls }
  | .fmtPrintf msg k, st =>
    let r := k.run sv st
    { r with calls := Call.fmtPrintf msg :: r.calls }

/-- The call is a `State.Set` or `State.Get`. -/
def Call.isState : Call → Bool
  | .stateSet _ _ => true
  | .stateGet _ => true
  | _ => false

/-- The call is a `State.Set`. -/
def Call.isStateSet : Call → Bool
  | .stateSet _ _ => true
  | _ => false

/-- The call is an `Artifacts.Save`. -/
def Call.isArtifactsSave : Call → Bool
  | .artifactsSave _ _ => true
  | _ => false

/-- Identity of a session. -/
structure SessionId where
  appName : String
  userID : String
  sessionID : String
  deriving DecidableEq, Repr

/-- A state store shared by all sessions: every access names the session it is
made from. -/
structure StateStore (σ : Type) where
  set : SessionId → String → Value → σ → Option String × σ
  get : SessionId → String → σ → Value × Option String

/-- The services a handler sees when it runs in session `s` over a shared state
store; no artifact service is configured. -/
def StateStore.services {σ : Type} (store : StateStore σ) (s : SessionId) : Services σ :=
  { stateSet := store.set s
    stateGet := store.get s
    artifactsSave := fun _ _ st => ((0, some "artifact service is not configured"), st) }

/-- Two sessions belong to the same user of the same application. -/
def SessionId.sameUser (s1 s2 : SessionId) : Prop :=
  s1.appName = s2.appName ∧ s1.userID = s2.userID

/-- Store contract assumed by the round trip: on a key carrying the user prefix,
`Set` succeeds and a `Get` from any session of the same user then returns the
value just written, without error. -/
def StateStore.UserScoped {σ : Type} (store : StateStore σ) (KeyPrefixUser : String) : Prop :=
  ∀ (s1 s2 : SessionId) (name : String) (v : Value) (st : σ), s1.sameUser s2 →
    (store.set s1 (KeyPrefixUser ++ name) v st).1 = none ∧
    store.get s2 (KeyPrefixUser ++ name) (store.set s1 (KeyPrefixUser ++ name) v st).2
      = (v, none)

/-- Contents of the in-memory store: bindings of (owner, key) to a value, the
most recent first. -/
abbrev MemState := List ((String × String × String) × Value)

/-- Owner of a key: the user for a key carrying the user prefix, the session
otherwise. -/
def ownerOf (KeyPrefixUser : String) (s : SessionId) (key : String) : String × String :=
  if KeyPrefixUser.data.isPrefixOf key.data then (s.appName, s.userID)
  else (s.appName, s.userID ++ "/" ++ s.sessionID)

/-- Modelled from the spec: the session store lives outside this repository. An
in-memory state store in which a write under the user prefix is visible across
all sessions of the user, any other write only within its session, the last
write to a key winning. -/
def memStore (KeyPrefixUser : String) : StateStore MemState :=
  { set := fun s key v st =>
      (none, (((ownerOf KeyPrefixUser s key).1, (ownerOf KeyPrefixUser s key).2, key), v) :: st)
    get := fun s key st =>
      match st.lookup ((ownerOf KeyPrefixUser s key).1, (ownerOf KeyPrefixUser s key).2, key) with
      | some v => (v, none)
      | none => (Value.null, some "key not found") }

end ToolContext

/-! ## experiments/session_state/main.go -/

namespace SessionState

open ToolContext

/-- Go struct `SaveColorInput`. -/
structure SaveColorInput where
  Color : String
  deriving DecidableEq, Repr

/-- Go struct `SaveColorOutput`. -/
structure SaveColorOutput where
  Success : Bool
  deriving DecidableEq, Repr

/-- Go struct `GetColorInput`. -/
structure GetColorInput where
  deriving DecidableEq, Repr

/-- Go struct `GetColorOutput`. -/
structure GetColorOutput where
  Color : String
  deriving DecidableEq, Repr

/-- Handler `saveColorHandler`. The library constant `session.KeyPrefixUser` is
a parameter of the embedding. -/
def saveColorHandler (KeyPrefixUser : String) (input : SaveColorInput) : Prog SaveColorOutput :=
  let key := KeyPrefixUser ++ "fav_color"
  Prog.stateSet key (Value.str input.Color) fun err =>
    match err with
    | some e => Prog.logPrintf ("Error saving state: " ++ e) (Prog.ret { Success := false })
    | none => Prog.ret { Success := true }

/-- Handler `getColorHandler`. -/
def getColorHandler (KeyPrefixUser : String) (_input : GetColorInput) : Prog GetColorOutput :=
  let key := KeyPrefixUser ++ "fav_color"
  Prog.stateGet key fun val err =>
    match err with
    | some _ => Prog.ret { Color := "unknown" }
    | none =>
      match val with
      | Value.str color => Prog.ret { Color := color }
      | _ => Prog.ret { Color := "unknown" }

/-- First session of the round-trip scenario. -/
def sessionOne : SessionId := { appName := "app", userID := "test_user", sessionID := "s1" }

/-- Later session of the same user. -/
def sessionTwo : SessionId := { appName := "app", userID := "test_user", sessionID := "s2" }

end SessionState

/-! ## experiments/generate_artifact/main.go -/

namespace GenerateArtifact

open ToolContext

/-- Go struct `SaveReportInput`. -/
structure SaveReportInput where
  Filename : String
  Content : String
  deriving DecidableEq, Repr

/-- Go struct `SaveReportOutput`. -/
structure SaveReportOutput where
  Success : Bool
  deriving DecidableEq, Repr

/-- Handler `saveReportHandler`; `len(input.Content)` is the length in bytes. -/
def saveReportHandler (input : SaveReportInput) : Prog SaveReportOutput :=
  Prog.artifactsSave input.Filename (NewPartFromText input.Content) fun _ err =>
    match err with
    | some e => Prog.logPrintf ("Error saving artifact: " ++ e) (Prog.ret { Success := false })
    | none =>
      Prog.fmtPrintf ("\n[SYSTEM] Saved artifact \x27" ++ input.Filename
          ++ "\x27 (Content length: " ++ toString input.Content.utf8ByteSize ++ ")\n")
        (Prog.ret { Success := true })

/-- Services in which every call fails. -/
def failingServices : Services Unit :=
  { stateSet := fun _ _ st => (some "state is read-only", st)
    stateGet := fun _ _ => (Value.null, some "key not found")
    artifactsSave := fun _ _ st => ((0, some "artifact store is full"), st) }

end GenerateArtifact

/-! ## experiments/human_in_the_loop/main.go -/

namespace HumanInTheLoop

/-- Go struct `AskHumanInput`. -/
structure AskHumanInput where
  Question : String
  deriving DecidableEq, Repr

/-- Go struct `AskHumanOutput`. -/
structure AskHumanOutput where
  Answer : String
  deriving DecidableEq, Repr

/-- Library predicate `unicode.IsSpace`: the Unicode white space characters. -/
def isSpace (c : Char) : Bool :=
  (0x09 ≤ c.toNat && c.toNat ≤ 0x0D) || c.toNat == 0x20 || c.toNat == 0x85 || c.toNat == 0xA0
    || c.toNat == 0x1680 || (0x2000 ≤ c.toNat && c.toNat ≤ 0x200A) || c.toNat == 0x2028
    || c.toNat == 0x2029 || c.toNat == 0x202F || c.toNat == 0x205F || c.toNat == 0x3000

/-- Library method `bufio.Reader.ReadString(delim)` on the characters still to
come on the input: the data up to and including the first `delim`, or all of it
together with the end-of-input error when no `delim` arrives. -/
def ReadString (delim : Char) : List Char → List Char × Option String
  | [] => ([], some "EOF")
  | c :: rest =>
    if c = delim then ([c], none)
    else ((c :: (ReadString delim rest).1), (ReadString delim rest).2)

/-- Library function `strings.TrimLeftFunc(s, unicode.IsSpace)`: drop characters
from the front up to the first one that is not white space. -/
def trimLeft : List Char → List Char
  | [] => []
  | c :: rest => if isSpace c then trimLeft rest else c :: rest

/-- Library function `strings.TrimRightFunc(s, unicode.IsSpace)`: the same from
the back. -/
def trimRight (s : List Char) : List Char := (trimLeft s.reverse).reverse

/-- Library function `strings.TrimSpace`. -/
def TrimSpace (s : String) : String := String.mk (trimRight (trimLeft s.data))

/-- Handler `askHumanHandler`, given the characters still to come on standard
input. The prompt it prints does not influence the result. -/
def askHumanHandler (stdin : List Char) (_input : AskHumanInput) : AskHumanOutput :=
  let answer := (ReadString '\n' stdin).1
  { Answer := TrimSpace (String.mk answer) }

/-- Spec side: the text on the input up to and including the first newline, or
up to the end of input when there is no newline. -/
def firstLine (stdin : List Char) : List Char :=
  stdin.takeWhile (fun c => c != '\n') ++ (stdin.dropWhile (fun c => c != '\n')).take 1

end HumanInTheLoop

/-! ## experiments/long_term_memory/main.go: `runTurn` -/

namespace LongTermMemory

/-- Model response carried by an event (`model.LLMResponse`); `Content` is a
pointer that may be nil. -/
structure LLMResponse where
  Content : Option Content
  deriving DecidableEq, Repr

/-- Event yielded by the runner (`session.Event`). -/
structure Event where
  LLMResponse : LLMResponse
  deriving DecidableEq, Repr

/-- The runner: the (event, error) pairs `r.Run(ctx, userID, sessionID, userMsg, cfg)`
yields, in order, for a user, a session and the text of the user message. -/
abbrev Runner := String → String → String → List (Event × Option String)

/-- What a turn leaves behind: the writes to standard output and to the logger,
in order, and the number of pairs taken from the runner's sequence. -/
structure TurnOutput where
  stdout : List String
  log : List String
  consumed : Nat
  deriving DecidableEq, Repr

/-- Inner loop `for _, part := range event.LLMResponse.Content.Parts { fmt.Print(part.Text) }`,
started from the writes made so far. -/
def printParts : List Part → List String → List String
  | [], out => out
  | part :: rest, out => printParts rest (out ++ [part.Text])

/-- The loop `for event, err := range r.Run(...) { ... }` of `runTurn`, started
from the state `acc`. The flag of the result tells whether the loop left the
function through its `return`. -/
def runTurnLoop : List (Event × Option String) → TurnOutput → TurnOutput × Bool
  | [], acc => (acc, false)
  | (event, err) :: rest, acc =>
    match err with
    | some e =>
      ({ stdout := acc.stdout
         log := acc.log ++ ["\nError during turn: " ++ e ++ "\n"]
         consumed := acc.consumed + 1 }, true)
    | none =>
      match event.LLMResponse.Content with
      | some content =>
        runTurnLoop rest
          { stdout := printParts content.Parts acc.stdout
            log := acc.log
            consumed := acc.consumed + 1 }
      | none =>
        runTurnLoop rest { stdout := acc.stdout, log := acc.log, consumed := acc.consumed + 1 }

/-- Function `runTurn`. -/
def runTurn (r : Runner) (sessionID userID prompt : String) : TurnOutput :=
  let start : TurnOutput :=
    { stdout := ["User: " ++ prompt ++ "\n", "Agent: "], log := [], consumed := 0 }
  match runTurnLoop (r userID sessionID prompt) start with
  | (out, true) => out
  | (out, false) => { out with stdout := out.stdout ++ ["\n"] }

/-- Spec side: the pairs that precede the first pair carrying an error. -/
def beforeFirstError (pairs : List (Event × Option String)) : List (Event × Option String) :=
  pairs.takeWhile (fun p => p.2.isNone)

/-- Spec side: the `Text` of every part of every event with non-nil content, in
event order and then part order. -/
def textsOf : List (Event × Option String) → List String
  | [] => []
  | p :: rest =>
    (match p.1.LLMResponse.Content with
      | some content => content.Parts.map Part.Text
      | none => []) ++ textsOf rest

/-- Some pair of the sequence carries an error. -/
def hasError (pairs : List (Event × Option String)) : Bool :=
  pairs.any (fun p => p.2.isSome)

/-- Event whose content is the given texts, one part each. -/
def textEvent (texts : List String) : Event :=
  { LLMResponse := { Content := some { Parts := texts.map (fun t => { Text := t }) } } }

/-- Event without content. -/
def emptyEvent : Event := { LLMResponse := { Content := none } }

/-- Runner that yields two events, then fails, then would yield one more. -/
def failingRunner : Runner := fun _ _ _ =>
  [(textEvent ["Your favorite ", "color"], none), (emptyEvent, none),
   (emptyEvent, some "backend unavailable"), (textEvent [" is blue."], none)]

/-- Search service whose backend fails. -/
def failingSearch : SearchMemory := fun _ =>
  { resp := { Memories := [] }, err := some "memory service unavailable" }

end LongTermMemory

/-! ## Launcher arguments in the `main` functions -/

namespace Launcher

/-- Slice expression `os.Args[1:]`: panics when `os.Args` is empty. -/
def argsFromOne : List String → Option (List String)
  | [] => none
  | _ :: rest => some rest

end Launcher

namespace SequentialJokes

/-- The argument list `main` hands to `l.Execute`, from `os.Args`. -/
def mainArgs (osArgs : List String) : Option (List String) :=
  match Launcher.argsFromOne osArgs with
  | none => none
  | some args => if args.length = 0 then some ["Go!"] else some args

end SequentialJokes

namespace LoopImprover

/-- The argument list `main` hands to `l.Execute`, from `os.Args`. -/
def mainArgs (osArgs : List String) : Option (List String) :=
  match Launcher.argsFromOne osArgs with
  | none => none
  | some args => if args.length = 0 then some ["Recursion"] else some args

end LoopImprover

namespace ParallelPerspectives

/-- The argument list `main` hands to `l.Execute`, from `os.Args`. -/
def mainArgs (osArgs : List String) : Option (List String) :=
  match Launcher.argsFromOne osArgs with
  | none => none
  | some args => if args.length = 0 then some ["Artificial Intelligence"] else some args

end ParallelPerspectives

namespace GenerateArtifact

/-- The argument list `main` hands to `l.Execute`, from `os.Args`. -/
def mainArgs (osArgs : List String) : Option (List String) :=
  match Launcher.argsFromOne osArgs with
  | none => none
  | some args =>
    if args.length = 0 then some ["Write a very short report about goldfish."] else some args

end GenerateArtifact

namespace HumanInTheLoop

/-- The argument list `main` hands to `l.Execute`, from `os.Args`. -/
def mainArgs (osArgs : List String) : Option (List String) :=
  match Launcher.argsFromOne osArgs with
  | none => none
  | some args => if args.length = 0 then some ["Please delete all my files."] else some args

end HumanInTheLoop

/-! # Theorems -/

/-! ## experiments/custom_tool/main.go -/

namespace CustomTool

theorem wrapInt_wrapInt_add (a b : Int) : wrapInt (wrapInt a + b) = wrapInt (a + b) := by
  unfold wrapInt; omega

theorem wrapInt_of_isInt {x : Int} (h : IsInt x) : wrapInt x = x := by
  unfold IsInt at h; unfold wrapInt; omega

theorem take_succ_set (rolls : List Int) (k : Nat) (v : Int) (h : k < rolls.length) :
    (rolls.set k v).take (k + 1) = rolls.take k ++ [v] := by
  induction rolls generalizing k with
  | nil => simp at h
  | cons a t ih =>
    cases k with
    | zero => simp
    | succ k =>
      simp only [List.length_cons, Nat.add_lt_add_iff_right] at h
      simp [ih k h]

theorem isInt_wrapInt (x : Int) : IsInt (wrapInt x) := by
  unfold IsInt wrapInt; omega

/-- Closed form of the loop: started at index `k` with `n - k` units of fuel it
ends normally, having overwritten the entries `k .. n-1` and added them to the
running total. -/
theorem rollLoop_eq (src : RandSource) (sides : Int) (hs : 0 < sides) (n : Nat)
    (hn : (n : Int) < 2 ^ 63) :
    ∀ (m k : Nat) (rolls : List Int) (total : Int), m + k = n → rolls.length = n →
      IsInt total →
      rollLoop src (n : Int) sides m (k : Int) rolls total
        = some (rolls.take k ++ (List.range' k m).map (rollAt src sides),
                wrapInt (total + ((List.range' k m).map (rollAt src sides)).sum)) := by
  intro m
  induction m with
  | zero =>
    intro k rolls total hk hlen ht
    have hk' : k = n := by omega
    subst hk'
    simp [rollLoop, ← hlen, wrapInt_of_isInt ht]
  | succ m ih =>
    intro k rolls total hk hlen ht
    have hkn : (k : Int) < (n : Int) := by omega
    have hk1 : wrapInt ((k : Int) + 1) = ((k + 1 : Nat) : Int) := by
      rw [wrapInt_of_isInt]
      · simp
      · unfold IsInt; omega
    have hrand : randIntn src k sides = some (src k sides) := by
      simp [randIntn, hs]
    have hset : setIndex rolls (k : Int) (wrapInt (src k sides + 1))
        = some (rolls.set k (wrapInt (src k sides + 1))) := by
      simp only [setIndex, Int.toNat_ofNat]
      rw [if_pos]
      exact ⟨by omega, by omega⟩
    simp only [rollLoop, if_pos hkn, Int.toNat_ofNat, hrand, hset, hk1]
    rw [ih (k + 1) _ _ (by omega) (by simp [hlen]) (isInt_wrapInt _)]
    rw [take_succ_set rolls k _ (by omega), wrapInt_wrapInt_add]
    simp [List.range'_succ, rollAt, add_assoc]

theorem effNumDice_pos (input : RollDiceInput) : 0 < effNumDice input := by
  unfold effNumDice; split <;> omega

theorem effSides_pos (input : RollDiceInput) : 0 < effSides input := by
  unfold effSides; split <;> omega

theorem effNumDice_lt (input : RollDiceInput) (h : input.WellFormed) :
    effNumDice input < 2 ^ 63 := by
  have h1 := h.1.2
  unfold effNumDice; split <;> omega

theorem effSides_lt (input : RollDiceInput) (h : input.WellFormed) :
    effSides input < 2 ^ 63 := by
  have h1 := h.2.2
  unfold effSides; split <;> omega

theorem effNumDice_eq (input : RollDiceInput) :
    effNumDice input = (if 0 < input.NumDice then input.NumDice else 1) := by
  unfold effNumDice
  split <;> split <;> omega

theorem effSides_eq (input : RollDiceInput) :
    effSides input = (if 0 < input.Sides then input.Sides else 6) := by
  unfold effSides
  split <;> split <;> omega

/-- Within the allocation limits `make` yields the slice of zeros. -/
theorem makeSlice_eq (memLimit : Nat) (n : Int) (h : CanAllocate memLimit n) :
    makeSlice memLimit n = some (List.replicate n.toNat (0 : Int)) := by
  obtain ⟨h0, h1, h2⟩ := h
  unfold makeSlice
  rw [if_neg (by omega), if_neg (by omega)]

/-- Beyond the allocation limits `make` does not return. -/
theorem makeSlice_none (memLimit : Nat) (n : Int) (h : ¬ CanAllocate memLimit n) :
    makeSlice memLimit n = none := by
  unfold CanAllocate at h
  unfold makeSlice
  by_cases h1 : n < 0 ∨ maxAlloc < n * intSize
  · rw [if_pos h1]
  · rw [if_neg h1, if_pos (by omega)]

/-- Closed form of the handler on a well-formed input whose slice `make` can
provide: it returns, the rolls are the values drawn in call order, the total is
their wrapped sum. -/
theorem rollDiceHandler_eq (memLimit : Nat) (src : RandSource) (input : RollDiceInput)
    (hwf : input.WellFormed) (hfit : CanAllocate memLimit (effNumDice input)) :
    rollDiceHandler memLimit src input = some (rolledOutput src input) := by
  have hpos := effNumDice_pos input
  have hlt := effNumDice_lt input hwf
  have hcast : (((effNumDice input).toNat : Nat) : Int) = effNumDice input :=
    Int.toNat_of_nonneg (le_of_lt hpos)
  have h := rollLoop_eq src (effSides input) (effSides_pos input) (effNumDice input).toNat
    (by rw [hcast]; exact hlt) (effNumDice input).toNat 0
    (List.replicate (effNumDice input).toNat 0) 0 (by omega) (by simp)
    (by unfold IsInt; omega)
  rw [hcast] at h
  simp only [Nat.cast_zero, List.take_zero, List.nil_append, zero_add] at h
  simp only [rollDiceHandler, makeSlice_eq memLimit _ hfit, h, rolledOutput]

/-- When `make` cannot provide the slice the handler does not return. -/
theorem rollDiceHandler_none (memLimit : Nat) (src : RandSource) (input : RollDiceInput)
    (hnot : ¬ CanAllocate memLimit (effNumDice input)) :
    rollDiceHandler memLimit src input = none := by
  simp only [rollDiceHandler, makeSlice_none memLimit _ hnot]

/-- The handler returns `out` exactly when `make` can provide the slice and
`out` is the output built from the draws. -/
theorem rollDiceHandler_some_iff (memLimit : Nat) (src : RandSource) (input : RollDiceInput)
    (hwf : input.WellFormed) (out : RollDiceOutput) :
    rollDiceHandler memLimit src input = some out ↔
      CanAllocate memLimit (effNumDice input) ∧ out = rolledOutput src input := by
  by_cases hfit : CanAllocate memLimit (effNumDice input)
  · rw [rollDiceHandler_eq memLimit src input hwf hfit]
    constructor
    · intro h
      exact ⟨hfit, (Option.some.inj h).symm⟩
    · rintro ⟨_, rfl⟩
      rfl
  · rw [rollDiceHandler_none memLimit src input hfit]
    constructor
    · intro h
      cases h
    · rintro ⟨h, _⟩
      exact absurd h hfit

/-- The handler returns exactly when `make` can provide `n'` elements. -/
theorem rollDiceHandler_returns_iff (memLimit : Nat) (src : RandSource)
    (input : RollDiceInput) (hwf : input.WellFormed) :
    (∃ out, rollDiceHandler memLimit src input = some out) ↔
      CanAllocate memLimit (if 0 < input.NumDice then input.NumDice else 1) := by
  rw [← effNumDice_eq]
  constructor
  · rintro ⟨out, h⟩
    exact ((rollDiceHandler_some_iff memLimit src input hwf out).mp h).1
  · intro h
    exact ⟨_, rollDiceHandler_eq memLimit src input hwf h⟩

/-- With `2^62` dice the handler panics in `make`, whatever memory there is. -/
theorem rollDiceHandler_tooManyDice (memLimit : Nat) (src : RandSource) :
    rollDiceHandler memLimit src tooManyDice = none := by
  apply rollDiceHandler_none
  intro h
  have h1 := h.2.1
  have he : effNumDice tooManyDice = 2 ^ 62 := by decide
  rw [he] at h1
  revert h1
  decide

theorem rollAt_bounds (src : RandSource) (hsrc : src.Valid) (sides : Int) (hs : 0 < sides)
    (hlt : sides < 2 ^ 63) (j : Nat) :
    1 ≤ rollAt src sides j ∧ rollAt src sides j ≤ sides := by
  obtain ⟨h0, h1⟩ := hsrc j sides hs
  unfold rollAt
  rw [wrapInt_of_isInt (by unfold IsInt; omega)]
  omega

theorem sum_bounds (s : Int) (l : List Int) (h : ∀ r ∈ l, 1 ≤ r ∧ r ≤ s) :
    (l.length : Int) ≤ l.sum ∧ l.sum ≤ (l.length : Int) * s := by
  induction l with
  | nil => simp
  | cons a t ih =>
    have ha := h a (List.mem_cons_self a t)
    have ht := ih (fun r hr => h r (List.mem_cons_of_mem a hr))
    simp only [List.length_cons, List.sum_cons, Nat.cast_add, Nat.cast_one]
    constructor
    · omega
    · nlinarith [ht.2, ha.2]

theorem rolledOutput_length (src : RandSource) (input : RollDiceInput) :
    ((rolledOutput src input).Rolls.length : Int)
      = (if 0 < input.NumDice then input.NumDice else 1) := by
  simp only [rolledOutput, List.length_map, List.length_range']
  rw [Int.toNat_of_nonneg (le_of_lt (effNumDice_pos input)), effNumDice_eq]

theorem rolledOutput_range (src : RandSource) (hsrc : src.Valid) (input : RollDiceInput)
    (hwf : input.WellFormed) :
    ∀ r ∈ (rolledOutput src input).Rolls,
      1 ≤ r ∧ r ≤ (if 0 < input.Sides then input.Sides else 6) := by
  intro r hr
  simp only [rolledOutput, List.mem_map] at hr
  obtain ⟨j, _, rfl⟩ := hr
  rw [← effSides_eq]
  exact rollAt_bounds src hsrc (effSides input) (effSides_pos input)
    (effSides_lt input hwf) j

theorem maxSource_valid : RandSource.Valid maxSource := by
  intro k n hn
  unfold maxSource
  omega

/-- C1: on every input and every outcome of the random source, the `Rolls` the
handler returns has length `NumDice` when `NumDice > 0` and length 1 otherwise,
and is never empty. The handler returns exactly when `make` can provide that
many elements (beyond that it panics or runs out of memory in `make`). -/
theorem rollDiceHandler_rolls_length (memLimit : Nat) (src : RandSource)
    (input : RollDiceInput) (hwf : input.WellFormed) :
    (∀ out, rollDiceHandler memLimit src input = some out →
      (out.Rolls.length : Int) = (if 0 < input.NumDice then input.NumDice else 1) ∧
      out.Rolls ≠ []) ∧
    ((∃ out, rollDiceHandler memLimit src input = some out) ↔
      CanAllocate memLimit (if 0 < input.NumDice then input.NumDice else 1)) := by
  refine ⟨?_, rollDiceHandler_returns_iff memLimit src input hwf⟩
  intro out hout
  obtain ⟨_, rfl⟩ := (rollDiceHandler_some_iff memLimit src input hwf out).mp hout
  have hlen := rolledOutput_length src input
  refine ⟨hlen, ?_⟩
  intro hnil
  rw [hnil] at hlen
  have hpos := effNumDice_pos input
  rw [effNumDice_eq] at hpos
  simp only [List.length_nil, Nat.cast_zero] at hlen
  omega

/-- Witness of C1 at negative fields: the handler rolls one six-sided die. -/
theorem rollDiceHandler_rolls_length_witness :
    negativeDice.WellFormed ∧ CanAllocate 1024 1 ∧
    ∃ out, rollDiceHandler 1024 maxSource negativeDice = some out ∧
      out = { Rolls := [6], Total := 6 } ∧ (out.Rolls.length : Int) = 1 ∧ out.Rolls ≠ [] :=
  ⟨by decide, by decide, { Rolls := [6], Total := 6 }, by decide, rfl,
    ((rollDiceHandler_rolls_length 1024 maxSource negativeDice (by decide)).1
      { Rolls := [6], Total := 6 } (by decide)).1.trans (by decide),
    ((rollDiceHandler_rolls_length 1024 maxSource negativeDice (by decide)).1
      { Rolls := [6], Total := 6 } (by decide)).2⟩

/-- C2: on every input, when `rand.Intn(s)` yields values in `[0, s)`, every
element `r` of the `Rolls` the handler returns satisfies `1 ≤ r ≤ s'`, with
`s' = Sides` when `Sides > 0` and `s' = 6` otherwise. The handler returns
exactly when `make` can provide the slice. -/
theorem rollDiceHandler_rolls_range (memLimit : Nat) (src : RandSource)
    (input : RollDiceInput) (hwf : input.WellFormed) (hsrc : src.Valid) :
    (∀ out, rollDiceHandler memLimit src input = some out →
      ∀ r ∈ out.Rolls, 1 ≤ r ∧ r ≤ (if 0 < input.Sides then input.Sides else 6)) ∧
    ((∃ out, rollDiceHandler memLimit src input = some out) ↔
      CanAllocate memLimit (if 0 < input.NumDice then input.NumDice else 1)) := by
  refine ⟨?_, rollDiceHandler_returns_iff memLimit src input hwf⟩
  intro out hout
  obtain ⟨_, rfl⟩ := (rollDiceHandler_some_iff memLimit src input hwf out).mp hout
  exact rolledOutput_range src hsrc input hwf

/-- Witness of C2 at the zero-valued input: one six-sided die, the roll within
`[1, 6]`. -/
theorem rollDiceHandler_rolls_range_witness :
    RollDiceInput.WellFormed { NumDice := 0, Sides := 0 } ∧ RandSource.Valid maxSource ∧
    rollDiceHandler 1024 maxSource { NumDice := 0, Sides := 0 }
      = some { Rolls := [6], Total := 6 } ∧
    ∀ r ∈ [(6 : Int)], 1 ≤ r ∧ r ≤ 6 :=
  ⟨by decide, maxSource_valid, by decide,
    (rollDiceHandler_rolls_range 1024 maxSource { NumDice := 0, Sides := 0 } (by decide)
      maxSource_valid).1 { Rolls := [6], Total := 6 } (by decide)⟩

/-- C3 as stated fails: with two dice of `2^63 - 1` sides and both draws at
their maximum, the handler returns the rolls `[2^63 - 1, 2^63 - 1]` and the
total `-2`, not their sum `2^64 - 2`. -/
theorem rollDiceHandler_total_ne_sum :
    RandSource.Valid maxSource ∧ hugeDice.WellFormed ∧
    rollDiceHandler 1024 maxSource hugeDice
      = some { Rolls := [2 ^ 63 - 1, 2 ^ 63 - 1], Total := -2 } ∧
    (-2 : Int) ≠ List.sum [2 ^ 63 - 1, 2 ^ 63 - 1] :=
  ⟨maxSource_valid, by decide, by decide, by decide⟩

/-- C3 (amended): on every input and every outcome of the random source, the
`Total` the handler returns is the sum of the returned `Rolls` reduced to the
64-bit two's-complement range; when moreover the random source respects its
range and `n' * s' < 2^63` (`n'`, `s'` the effective dice count and side
count), `Total` is exactly the sum of `Rolls`. The handler returns exactly when
`make` can provide the slice. -/
theorem rollDiceHandler_total_wrapped_sum (memLimit : Nat) (src : RandSource)
    (input : RollDiceInput) (hwf : input.WellFormed) :
    (∀ out, rollDiceHandler memLimit src input = some out →
      out.Total = wrapInt out.Rolls.sum) ∧
    (src.Valid →
      (if 0 < input.NumDice then input.NumDice else 1)
        * (if 0 < input.Sides then input.Sides else 6) < 2 ^ 63 →
      ∀ out, rollDiceHandler memLimit src input = some out → out.Total = out.Rolls.sum) ∧
    ((∃ out, rollDiceHandler memLimit src input = some out) ↔
      CanAllocate memLimit (if 0 < input.NumDice then input.NumDice else 1)) := by
  refine ⟨?_, ?_, rollDiceHandler_returns_iff memLimit src input hwf⟩
  · intro out hout
    obtain ⟨_, rfl⟩ := (rollDiceHandler_some_iff memLimit src input hwf out).mp hout
    rfl
  · intro hsrc hprod out hout
    obtain ⟨_, rfl⟩ := (rollDiceHandler_some_iff memLimit src input hwf out).mp hout
    have hb := sum_bounds (if 0 < input.Sides then input.Sides else 6)
      (rolledOutput src input).Rolls (rolledOutput_range src hsrc input hwf)
    rw [rolledOutput_length] at hb
    have hpos := effNumDice_pos input
    rw [effNumDice_eq] at hpos
    show wrapInt (rolledOutput src input).Rolls.sum = (rolledOutput src input).Rolls.sum
    apply wrapInt_of_isInt
    unfold IsInt
    constructor <;> omega

/-- Witness of C3 (amended) at two twenty-sided dice. -/
theorem rollDiceHandler_total_wrapped_sum_witness :
    RollDiceInput.WellFormed { NumDice := 2, Sides := 20 } ∧
    RandSource.Valid maxSource ∧
    rollDiceHandler 1024 maxSource { NumDice := 2, Sides := 20 }
      = some { Rolls := [20, 20], Total := 40 } ∧
    (40 : Int) = wrapInt (List.sum [20, 20]) ∧
    (40 : Int) = List.sum [20, 20] :=
  ⟨by decide, maxSource_valid, by decide,
    (rollDiceHandler_total_wrapped_sum 1024 maxSource { NumDice := 2, Sides := 20 }
      (by decide)).1 { Rolls := [20, 20], Total := 40 } (by decide),
    (rollDiceHandler_total_wrapped_sum 1024 maxSource { NumDice := 2, Sides := 20 }
      (by decide)).2.1 maxSource_valid (by decide) { Rolls := [20, 20], Total := 40 }
      (by decide)⟩

end CustomTool

/-! ## experiments/long_term_memory/main.go -/

namespace LongTermMemory

/-- The accumulating inner loop computes the concatenation of the part texts. -/
theorem appendParts_eq (parts : List Part) (text : String) :
    appendParts parts text = text ++ concatText { Parts := parts } := by
  induction parts generalizing text with
  | nil => simp [appendParts, concatText, String.append_empty]
  | cons p rest ih =>
    simp only [appendParts, ih, concatText, List.map_cons, List.foldr_cons]
    exact String.append_assoc _ _ _

theorem appendParts_empty (content : Content) :
    appendParts content.Parts "" = concatText content := by
  rw [appendParts_eq, String.empty_append]

/-- The outer loop appends, in memory order, the fragments of the memories. -/
theorem recallLoop_eq (ms : List Entry) (memories : List String) :
    recallLoop ms memories = memories ++ ms.filterMap fragmentOf := by
  induction ms generalizing memories with
  | nil => simp [recallLoop]
  | cons m rest ih =>
    unfold recallLoop
    cases hc : m.Content with
    | none => simp [ih, fragmentOf, hc, List.filterMap_cons]
    | some content =>
      by_cases ht : concatText content = ""
      · simp [ih, fragmentOf, hc, List.filterMap_cons, appendParts_empty, ht]
      · simp [ih, fragmentOf, hc, List.filterMap_cons, appendParts_empty, ht]

theorem fragments_eq_nil (resp : SearchResponse)
    (h : ∀ m ∈ resp.Memories, ∀ c, m.Content = some c → concatText c = "") :
    fragments resp = [] := by
  unfold fragments
  rw [List.filterMap_eq_nil_iff]
  intro m hm
  unfold fragmentOf
  cases hc : m.Content with
  | none => rfl
  | some c => simp [h m hm c hc]

theorem fragments_ne_nil (resp : SearchResponse) (m : Entry) (hm : m ∈ resp.Memories)
    (c : Content) (hc : m.Content = some c) (ht : concatText c ≠ "") :
    concatText c ∈ fragments resp := by
  unfold fragments
  rw [List.mem_filterMap]
  exact ⟨m, hm, by simp [fragmentOf, hc, ht]⟩

theorem containsText_ne_empty (s : String) (h : containsText s "blue") : s ≠ "" := by
  obtain ⟨a, b, rfl⟩ := h
  intro he
  have hl := congrArg String.length he
  simp only [String.length_append] at hl
  have h4 : "blue".length = 4 := by decide
  have h0 : "".length = 0 := by decide
  omega

/-- C4: when the search succeeds but no returned memory has non-nil content
with non-empty concatenated part text (zero memories included), `recall`
returns exactly `["No relevant memories found."]`, which is not an error
message. -/
theorem recall_no_relevant (search : SearchMemory) (args : RecallArgs)
    (hok : (search args.Query).err = none)
    (hnone : ∀ m ∈ (search args.Query).resp.Memories, ∀ c, m.Content = some c →
      concatText c = "") :
    recallHandler search args = { Memories := ["No relevant memories found."] } ∧
    ∀ e : String, (recallHandler search args).Memories ≠ ["Error searching memory: " ++ e] := by
  have hres : recallHandler search args = { Memories := ["No relevant memories found."] } := by
    have hf := fragments_eq_nil _ hnone
    unfold fragments at hf
    simp [recallHandler, hok, recallLoop_eq, hf]
  refine ⟨hres, ?_⟩
  intro e h
  rw [hres] at h
  have h1 : "No relevant memories found." = "Error searching memory: " ++ e := by
    simpa using h
  have h2 := congrArg (fun s => s.data.head?) h1
  simp [String.data_append] at h2

/-- Witness of C4 at a response holding a nil-content memory and an empty-text
memory. -/
theorem recall_no_relevant_witness :
    (emptySearch "favorite food").err = none ∧
    (∀ m ∈ (emptySearch "favorite food").resp.Memories, ∀ c, m.Content = some c →
      concatText c = "") ∧
    recallHandler emptySearch { Query := "favorite food" }
      = { Memories := ["No relevant memories found."] } ∧
    ∀ e : String, (recallHandler emptySearch { Query := "favorite food" }).Memories
      ≠ ["Error searching memory: " ++ e] :=
  have h : ∀ m ∈ (emptySearch "favorite food").resp.Memories, ∀ c, m.Content = some c →
      concatText c = "" := by
    intro m hm c hc
    simp only [emptySearch, List.mem_cons, List.mem_singleton, List.not_mem_nil, or_false] at hm
    rcases hm with rfl | rfl
    · simp at hc
    · simp only [Option.some.injEq] at hc
      subst hc
      decide
  ⟨rfl, h, recall_no_relevant emptySearch { Query := "favorite food" } rfl h⟩

/-- C5: when the search succeeds and at least one memory has non-nil content
and non-empty concatenated part text, `recall` returns exactly the fragments of
the response: each memory mapped to the concatenation of its parts' texts in
part order, keeping in memory order those with non-nil content and non-empty
text; hence a memory whose text contains "blue" yields a returned fragment
containing "blue". -/
theorem recall_returns_fragments (search : SearchMemory) (args : RecallArgs)
    (hok : (search args.Query).err = none)
    (hsome : ∃ m ∈ (search args.Query).resp.Memories, ∃ c, m.Content = some c ∧
      concatText c ≠ "") :
    (recallHandler search args).Memories = fragments (search args.Query).resp ∧
    ∀ m ∈ (search args.Query).resp.Memories, ∀ c, m.Content = some c →
      containsText (concatText c) "blue" →
      ∃ f ∈ (recallHandler search args).Memories, containsText f "blue" := by
  obtain ⟨m0, hm0, c0, hc0, ht0⟩ := hsome
  have hmem := fragments_ne_nil _ m0 hm0 c0 hc0 ht0
  have hne : fragments (search args.Query).resp ≠ [] := List.ne_nil_of_mem hmem
  have hres : (recallHandler search args).Memories = fragments (search args.Query).resp := by
    unfold fragments at hne
    simp [recallHandler, hok, recallLoop_eq, fragments, hne]
  refine ⟨hres, ?_⟩
  intro m hm c hc hblue
  rw [hres]
  exact ⟨concatText c,
    fragments_ne_nil _ m hm c hc (containsText_ne_empty _ hblue), hblue⟩

/-- Witness of C5 at the recall scenario: the stored sentence is returned and
contains "blue". -/
theorem recall_returns_fragments_witness :
    (blueSearch "what is my favorite color").err = none ∧
    (∃ m ∈ (blueSearch "what is my favorite color").resp.Memories, ∃ c,
      m.Content = some c ∧ concatText c ≠ "") ∧
    containsText "my favorite color is blue" "blue" ∧
    (recallHandler blueSearch { Query := "what is my favorite color" }).Memories
      = ["my favorite color is blue"] ∧
    ∃ f ∈ (recallHandler blueSearch { Query := "what is my favorite color" }).Memories,
      containsText f "blue" :=
  have hin : blueEntry ∈ (blueSearch "what is my favorite color").resp.Memories := by
    simp [blueSearch]
  have hsome : ∃ m ∈ (blueSearch "what is my favorite color").resp.Memories, ∃ c,
      m.Content = some c ∧ concatText c ≠ "" :=
    ⟨blueEntry, hin, _, rfl, by decide⟩
  have hblue : containsText "my favorite color is blue" "blue" :=
    ⟨"my favorite color is ", "", by decide⟩
  ⟨rfl, hsome, hblue,
    (recall_returns_fragments blueSearch { Query := "what is my favorite color" } rfl hsome).1.trans
      (by decide),
    (recall_returns_fragments blueSearch { Query := "what is my favorite color" } rfl hsome).2
      blueEntry hin _ rfl hblue⟩

end LongTermMemory

/-! ## experiments/session_state/main.go -/

namespace ToolContext

/-- The in-memory store meets the user-scoped store contract. -/
theorem memStore_userScoped (KeyPrefixUser : String) :
    (memStore KeyPrefixUser).UserScoped KeyPrefixUser := by
  intro s1 s2 name v st hsame
  obtain ⟨happ, huser⟩ := hsame
  have hpre : KeyPrefixUser.data.isPrefixOf (KeyPrefixUser ++ name).data = true := by
    rw [String.data_append, List.isPrefixOf_iff_prefix]
    exact List.prefix_append _ _
  refine ⟨rfl, ?_⟩
  simp only [memStore, ownerOf, hpre, if_true, happ, huser, List.lookup_cons, beq_self_eq_true]

end ToolContext

namespace SessionState

open ToolContext

/-- C6: over a state store in which `Set` on the user-prefixed key succeeds and
`Get` returns the value last written, for every string `c`, running
`saveColorHandler` with `Color = c` in one session and then `getColorHandler`
in the same or another session of the same user reports success and returns
`Color = c`: both handlers use the key `KeyPrefixUser + "fav_color"`. -/
theorem save_then_get_color {σ : Type} (store : StateStore σ) (KeyPrefixUser : String)
    (hstore : store.UserScoped KeyPrefixUser) (s1 s2 : SessionId) (hsame : s1.sameUser s2)
    (c : String) (st : σ) :
    ((saveColorHandler KeyPrefixUser { Color := c }).run (store.services s1) st).out.Success
      = true ∧
    ((getColorHandler KeyPrefixUser {}).run (store.services s2)
      ((saveColorHandler KeyPrefixUser { Color := c }).run (store.services s1) st).store).out.Color
      = c := by
  obtain ⟨hset, hget⟩ := hstore s1 s2 "fav_color" (Value.str c) st hsame
  constructor
  · simp only [saveColorHandler, Prog.run, StateStore.services, hset]
  · simp only [saveColorHandler, getColorHandler, Prog.run, StateStore.services, hset, hget]

/-- Witness of C6: the in-memory store, a colour saved in one session and read
back in a later session of the same user. -/
theorem save_then_get_color_witness :
    (memStore "user:").UserScoped "user:" ∧ sessionOne.sameUser sessionTwo ∧
    ((saveColorHandler "user:" { Color := "blue" }).run
      ((memStore "user:").services sessionOne) []).out.Success = true ∧
    ((getColorHandler "user:" {}).run ((memStore "user:").services sessionTwo)
      ((saveColorHandler "user:" { Color := "blue" }).run
        ((memStore "user:").services sessionOne) []).store).out.Color = "blue" :=
  ⟨memStore_userScoped "user:", ⟨rfl, rfl⟩,
    save_then_get_color (memStore "user:") "user:" (memStore_userScoped "user:")
      sessionOne sessionTwo ⟨rfl, rfl⟩ "blue" []⟩

/-- C7: for every state, `getColorHandler` returns `Color = "unknown"` when
`State.Get` on `KeyPrefixUser + "fav_color"` returns an error or a value that
is not a string, and otherwise exactly the stored string; it always returns,
its only call is that `Get`, and the store is left unchanged. -/
theorem getColorHandler_result {σ : Type} (sv : Services σ) (KeyPrefixUser : String)
    (input : GetColorInput) (st : σ) :
    (∀ v e, sv.stateGet (KeyPrefixUser ++ "fav_color") st = (v, some e) →
      ((getColorHandler KeyPrefixUser input).run sv st).out.Color = "unknown") ∧
    (∀ v, sv.stateGet (KeyPrefixUser ++ "fav_color") st = (v, none) →
      (∀ s, v ≠ Value.str s) →
      ((getColorHandler KeyPrefixUser input).run sv st).out.Color = "unknown") ∧
    (∀ s, sv.stateGet (KeyPrefixUser ++ "fav_color") st = (Value.str s, none) →
      ((getColorHandler KeyPrefixUser input).run sv st).out.Color = s) ∧
    ((getColorHandler KeyPrefixUser input).run sv st).calls
      = [Call.stateGet (KeyPrefixUser ++ "fav_color")] ∧
    ((getColorHandler KeyPrefixUser input).run sv st).calls.filter Call.isStateSet = [] ∧
    ((getColorHandler KeyPrefixUser input).run sv st).store = st := by
  have hcalls : ((getColorHandler KeyPrefixUser input).run sv st).calls
      = [Call.stateGet (KeyPrefixUser ++ "fav_color")] := by
    simp only [getColorHandler, Prog.run]
    cases (sv.stateGet (KeyPrefixUser ++ "fav_color") st).2 with
    | some e => rfl
    | none => cases (sv.stateGet (KeyPrefixUser ++ "fav_color") st).1 <;> rfl
  have hstore : ((getColorHandler KeyPrefixUser input).run sv st).store = st := by
    simp only [getColorHandler, Prog.run]
    cases (sv.stateGet (KeyPrefixUser ++ "fav_color") st).2 with
    | some e => rfl
    | none => cases (sv.stateGet (KeyPrefixUser ++ "fav_color") st).1 <;> rfl
  refine ⟨?_, ?_, ?_, hcalls, ?_, hstore⟩
  · intro v e h
    simp only [getColorHandler, Prog.run, h]
  · intro v h hv
    cases v with
    | str s => exact absurd rfl (hv s)
    | int n => simp only [getColorHandler, Prog.run, h]
    | bool b => simp only [getColorHandler, Prog.run, h]
    | null => simp only [getColorHandler, Prog.run, h]
  · intro s h
    simp only [getColorHandler, Prog.run, h]
  · rw [hcalls]
    rfl

/-- Witness of C7 on the in-memory store: "unknown" before any colour is saved
(the key is missing) and when the key holds a number, the stored string once
one is saved. -/
theorem getColorHandler_result_witness :
    ((getColorHandler "user:" {}).run ((memStore "user:").services sessionOne) []).out.Color
      = "unknown" ∧
    ((getColorHandler "user:" {}).run ((memStore "user:").services sessionOne)
      [(("app", "test_user", "user:fav_color"), Value.int 7)]).out.Color = "unknown" ∧
    ((getColorHandler "user:" {}).run ((memStore "user:").services sessionOne)
      [(("app", "test_user", "user:fav_color"), Value.str "blue")]).out.Color = "blue" :=
  ⟨(getColorHandler_result ((memStore "user:").services sessionOne) "user:" {} []).1
      Value.null "key not found" (by decide),
    (getColorHandler_result ((memStore "user:").services sessionOne) "user:" {}
      [(("app", "test_user", "user:fav_color"), Value.int 7)]).2.1
      (Value.int 7) (by decide) (by intro s h; cases h),
    (getColorHandler_result ((memStore "user:").services sessionOne) "user:" {}
      [(("app", "test_user", "user:fav_color"), Value.str "blue")]).2.2.1
      "blue" (by decide)⟩

/-- C8: for every input, `saveColorHandler` makes exactly one state call, a
`State.Set` with key `KeyPrefixUser + "fav_color"` and value `input.Color` (so
no other key is written), and returns `Success = true` if and only if that
call returned no error. -/
theorem saveColorHandler_single_set {σ : Type} (sv : Services σ) (KeyPrefixUser : String)
    (input : SaveColorInput) (st : σ) :
    ((saveColorHandler KeyPrefixUser input).run sv st).calls.filter Call.isState
      = [Call.stateSet (KeyPrefixUser ++ "fav_color") (Value.str input.Color)] ∧
    (((saveColorHandler KeyPrefixUser input).run sv st).out.Success = true ↔
      (sv.stateSet (KeyPrefixUser ++ "fav_color") (Value.str input.Color) st).1 = none) ∧
    ((saveColorHandler KeyPrefixUser input).run sv st).store
      = (sv.stateSet (KeyPrefixUser ++ "fav_color") (Value.str input.Color) st).2 := by
  simp only [saveColorHandler, Prog.run]
  cases (sv.stateSet (KeyPrefixUser ++ "fav_color") (Value.str input.Color) st).1 with
  | some e => simp [Prog.run, Call.isState]
  | none => simp [Prog.run, Call.isState]

end SessionState

/-! ## experiments/generate_artifact/main.go -/

namespace GenerateArtifact

open ToolContext

/-- C9: for every input, `saveReportHandler` makes exactly one `Artifacts.Save`
call, with name `input.Filename` and a text part whose text is `input.Content`,
and it returns `Success = true` if and only if that call returned no error: a
`Save` error ends in the output `Success = false`, not in a failure of the
handler. -/
theorem saveReportHandler_single_save {σ : Type} (sv : Services σ) (input : SaveReportInput)
    (st : σ) :
    ((saveReportHandler input).run sv st).calls.filter Call.isArtifactsSave
      = [Call.artifactsSave input.Filename { Text := input.Content }] ∧
    (((saveReportHandler input).run sv st).out.Success = true ↔
      (sv.artifactsSave input.Filename { Text := input.Content } st).1.2 = none) ∧
    (∀ e, (sv.artifactsSave input.Filename { Text := input.Content } st).1.2 = some e →
      ((saveReportHandler input).run sv st).out = { Success := false }) := by
  simp only [saveReportHandler, Prog.run, NewPartFromText]
  cases (sv.artifactsSave input.Filename { Text := input.Content } st).1.2 with
  | some e => simp [Prog.run, Call.isArtifactsSave]
  | none => simp [Prog.run, Call.isArtifactsSave]

/-- Witness of C9 on an artifact service that fails: the handler still
returns, with `Success = false`. -/
theorem saveReportHandler_single_save_witness :
    ((saveReportHandler { Filename := "goldfish.txt", Content := "Goldfish are fish." }).run
      failingServices ()).out = { Success := false } :=
  (saveReportHandler_single_save failingServices
    { Filename := "goldfish.txt", Content := "Goldfish are fish." } ()).2.2
    "artifact store is full" rfl

end GenerateArtifact

/-! ## experiments/human_in_the_loop/main.go -/

namespace HumanInTheLoop

/-- The read returns the first line of the input. -/
theorem readString_eq_firstLine (stdin : List Char) :
    (ReadString '\n' stdin).1 = firstLine stdin := by
  induction stdin with
  | nil => rfl
  | cons c rest ih =>
    by_cases hc : c = '\n'
    · subst hc
      simp [ReadString, firstLine, List.takeWhile_cons, List.dropWhile_cons]
    · simp only [firstLine] at ih
      simp [ReadString, firstLine, List.takeWhile_cons, List.dropWhile_cons, hc, ih]

theorem trimLeft_split (s : List Char) :
    ∃ l, s = l ++ trimLeft s ∧ ∀ c ∈ l, isSpace c = true := by
  induction s with
  | nil => exact ⟨[], rfl, by simp⟩
  | cons a rest ih =>
    by_cases ha : isSpace a = true
    · obtain ⟨l, hl, hsp⟩ := ih
      refine ⟨a :: l, ?_, ?_⟩
      · simp only [trimLeft, ha, if_true, List.cons_append]
        rw [← hl]
      · intro c hc
        rcases List.mem_cons.mp hc with rfl | h
        · exact ha
        · exact hsp c h
    · exact ⟨[], by simp [trimLeft, ha], by simp⟩

theorem trimLeft_head (s : List Char) (c : Char) (h : (trimLeft s).head? = some c) :
    isSpace c = false := by
  induction s with
  | nil => simp [trimLeft] at h
  | cons a rest ih =>
    by_cases ha : isSpace a = true
    · simp only [trimLeft, ha, if_true] at h
      exact ih h
    · simp only [trimLeft, ha] at h
      simp only [Bool.false_eq_true, if_false, List.head?_cons, Option.some.injEq] at h
      subst h
      simpa using ha

theorem trimLeft_fixed (s : List Char) (h : ∀ c, s.head? = some c → isSpace c = false) :
    trimLeft s = s := by
  cases s with
  | nil => rfl
  | cons a rest =>
    have ha := h a rfl
    simp [trimLeft, ha]

theorem trimRight_split (s : List Char) :
    ∃ t, s = trimRight s ++ t ∧ ∀ c ∈ t, isSpace c = true := by
  obtain ⟨l, hl, hsp⟩ := trimLeft_split s.reverse
  refine ⟨l.reverse, ?_, ?_⟩
  · have h := congrArg List.reverse hl
    simpa [trimRight] using h
  · intro c hc
    exact hsp c (List.mem_reverse.mp hc)

theorem trimRight_last (s : List Char) (c : Char) (h : (trimRight s).getLast? = some c) :
    isSpace c = false := by
  unfold trimRight at h
  rw [List.getLast?_reverse] at h
  exact trimLeft_head _ c h

theorem trimRight_fixed (s : List Char) (h : ∀ c, s.getLast? = some c → isSpace c = false) :
    trimRight s = s := by
  unfold trimRight
  rw [trimLeft_fixed, List.reverse_reverse]
  intro c hc
  rw [List.head?_reverse] at hc
  exact h c hc

theorem trimRight_head (s : List Char) (c : Char) (h : (trimRight s).head? = some c) :
    s.head? = some c := by
  obtain ⟨t, ht, _⟩ := trimRight_split s
  rw [ht]
  cases hr : trimRight s with
  | nil => simp [hr] at h
  | cons a rest =>
    rw [hr] at h
    simpa using h

/-- C10: for every console input, the `Answer` of `askHumanHandler` is the first
line of standard input (up to and including the first newline, or up to the end
of input when there is none) with all leading and trailing white space removed:
the line is `l ++ Answer ++ t` with `l` and `t` white space only, `Answer`
neither begins nor ends with a white space character, and trimming it again
leaves it unchanged. -/
theorem askHumanHandler_answer_trimmed (stdin : List Char) (input : AskHumanInput) :
    (∃ l t : List Char,
      firstLine stdin = l ++ (askHumanHandler stdin input).Answer.data ++ t ∧
      (∀ c ∈ l, isSpace c = true) ∧ (∀ c ∈ t, isSpace c = true)) ∧
    (∀ c, (askHumanHandler stdin input).Answer.data.head? = some c → isSpace c = false) ∧
    (∀ c, (askHumanHandler stdin input).Answer.data.getLast? = some c → isSpace c = false) ∧
    TrimSpace (askHumanHandler stdin input).Answer = (askHumanHandler stdin input).Answer := by
  have hans : (askHumanHandler stdin input).Answer.data
      = trimRight (trimLeft (firstLine stdin)) := by
    simp only [askHumanHandler, TrimSpace, readString_eq_firstLine]
  have hhead : ∀ c, (trimRight (trimLeft (firstLine stdin))).head? = some c →
      isSpace c = false :=
    fun c hc => trimLeft_head _ c (trimRight_head _ c hc)
  have hlast : ∀ c, (trimRight (trimLeft (firstLine stdin))).getLast? = some c →
      isSpace c = false :=
    fun c hc => trimRight_last _ c hc
  refine ⟨?_, ?_, ?_, ?_⟩
  · obtain ⟨l, hl, hlsp⟩ := trimLeft_split (firstLine stdin)
    obtain ⟨t, ht, htsp⟩ := trimRight_split (trimLeft (firstLine stdin))
    refine ⟨l, t, ?_, hlsp, htsp⟩
    rw [hans, List.append_assoc, ← ht, ← hl]
  · rw [hans]
    exact hhead
  · rw [hans]
    exact hlast
  · apply String.ext
    show trimRight (trimLeft (askHumanHandler stdin input).Answer.data)
      = (askHumanHandler stdin input).Answer.data
    rw [hans, trimLeft_fixed _ hhead, trimRight_fixed _ hlast]

end HumanInTheLoop

/-! ## experiments/long_term_memory/main.go: the error branch of `recall` and `runTurn` -/

namespace LongTermMemory

/-- C11: when the memory search fails with error `e`, `recall` still returns: its
`Memories` payload is exactly the one-element list holding
"Error searching memory: " followed by the message of `e`. -/
theorem recall_search_error (search : SearchMemory) (args : RecallArgs) (e : String)
    (herr : (search args.Query).err = some e) :
    recallHandler search args = { Memories := ["Error searching memory: " ++ e] } := by
  simp only [recallHandler, herr]

/-- Witness of C11 on a search service whose backend is unavailable. -/
theorem recall_search_error_witness :
    (failingSearch "what is my favorite color").err = some "memory service unavailable" ∧
    recallHandler failingSearch { Query := "what is my favorite color" }
      = { Memories := ["Error searching memory: memory service unavailable"] } :=
  ⟨rfl, (recall_search_error failingSearch { Query := "what is my favorite color" }
    "memory service unavailable" rfl).trans (by decide)⟩

/-- The inner printing loop writes the part texts in part order. -/
theorem printParts_eq (parts : List Part) (out : List String) :
    printParts parts out = out ++ parts.map Part.Text := by
  induction parts generalizing out with
  | nil => simp [printParts]
  | cons part rest ih => simp [printParts, ih]

/-- The loop over the runner's sequence, from any state: it writes the texts of
the pairs before the first error, takes those pairs and the failing one from
the sequence, and leaves through `return` exactly when there is an error. -/
theorem runTurnLoop_eq (pairs : List (Event × Option String)) (acc : TurnOutput) :
    (runTurnLoop pairs acc).1.stdout = acc.stdout ++ textsOf (beforeFirstError pairs) ∧
    (runTurnLoop pairs acc).1.consumed
      = acc.consumed + (if hasError pairs then (beforeFirstError pairs).length + 1
          else pairs.length) ∧
    (runTurnLoop pairs acc).2 = hasError pairs := by
  induction pairs generalizing acc with
  | nil => simp [runTurnLoop, beforeFirstError, textsOf, hasError]
  | cons p rest ih =>
    obtain ⟨event, err⟩ := p
    cases err with
    | some e => simp [runTurnLoop, beforeFirstError, textsOf, hasError]
    | none =>
      have hpre : beforeFirstError ((event, none) :: rest)
          = (event, none) :: beforeFirstError rest := by
        simp [beforeFirstError]
      have herr : hasError ((event, none) :: rest) = hasError rest := by
        simp [hasError]
      cases hc : event.LLMResponse.Content with
      | none =>
        obtain ⟨h1, h2, h3⟩ := ih
          { stdout := acc.stdout, log := acc.log, consumed := acc.consumed + 1 }
        dsimp only at h1 h2 h3
        simp only [runTurnLoop, hc, hpre, herr, textsOf, h1, h2, h3, List.nil_append,
          List.length_cons, true_and, and_true]
        refine ⟨rfl, ?_⟩
        by_cases he : hasError rest = true
        · simp only [if_pos he]; omega
        · simp only [if_neg he]; omega
      | some content =>
        obtain ⟨h1, h2, h3⟩ := ih
          { stdout := acc.stdout ++ content.Parts.map Part.Text, log := acc.log,
            consumed := acc.consumed + 1 }
        dsimp only at h1 h2 h3
        simp only [runTurnLoop, hc, hpre, herr, textsOf, h1, h2, h3, printParts_eq,
          List.append_assoc, List.length_cons, true_and, and_true]
        refine ⟨rfl, ?_⟩
        by_cases he : hasError rest = true
        · simp only [if_pos he]; omega
        · simp only [if_neg he]; omega

/-- C12: for every sequence of (event, error) pairs the runner yields, `runTurn`
writes, after its two header lines, the `Text` of every part of every event
with non-nil content, in event order and then part order, for exactly the
events before the first pair carrying an error (followed by a newline only when
no pair carries one); it takes nothing from the sequence past that first
error, so nothing of a later event is printed. -/
theorem runTurn_prints_before_first_error (r : Runner) (sessionID userID prompt : String) :
    (runTurn r sessionID userID prompt).stdout
      = ["User: " ++ prompt ++ "\n", "Agent: "]
          ++ textsOf (beforeFirstError (r userID sessionID prompt))
          ++ (if hasError (r userID sessionID prompt) then [] else ["\n"]) ∧
    (runTurn r sessionID userID prompt).consumed
      = (if hasError (r userID sessionID prompt)
          then (beforeFirstError (r userID sessionID prompt)).length + 1
          else (r userID sessionID prompt).length) := by
  obtain ⟨h1, h2, h3⟩ := runTurnLoop_eq (r userID sessionID prompt)
    { stdout := ["User: " ++ prompt ++ "\n", "Agent: "], log := [], consumed := 0 }
  rcases hl : runTurnLoop (r userID sessionID prompt)
    { stdout := ["User: " ++ prompt ++ "\n", "Agent: "], log := [], consumed := 0 }
    with ⟨out, returned⟩
  rw [hl] at h1 h2 h3
  dsimp only at h1 h2 h3
  cases returned with
  | true => simp [runTurn, hl, h1, h2, ← h3]
  | false => simp [runTurn, hl, h1, h2, ← h3]

/-- Witness of C12: the runner yields a two-part event, an event without
content, an error and one more event; the two part texts are written after the
header, the closing newline and the last event's text are not, and three pairs
are taken. -/
theorem runTurn_prints_before_first_error_witness :
    (runTurn failingRunner "s2" "test_user" "what is my favorite color").stdout
      = ["User: what is my favorite color\n", "Agent: ", "Your favorite ", "color"] ∧
    (runTurn failingRunner "s2" "test_user" "what is my favorite color").consumed = 3 :=
  ⟨(runTurn_prints_before_first_error failingRunner "s2" "test_user"
      "what is my favorite color").1.trans (by decide),
    (runTurn_prints_before_first_error failingRunner "s2" "test_user"
      "what is my favorite color").2.trans (by decide)⟩

end LongTermMemory

/-! ## Launcher arguments in the `main` functions -/

namespace Launcher

/-- C13: in the sequential_jokes, loop_improver, parallel_perspectives,
generate_artifact and human_in_the_loop programs, for every program name and
command-line arguments, the list handed to the launcher is the command-line
arguments unchanged when there is at least one, and the single-element list
holding the program's default prompt when there is none; it is never empty. -/
theorem mainArgs_given_or_default (prog : String) (cmdArgs : List String) :
    (SequentialJokes.mainArgs (prog :: cmdArgs)
        = some (if cmdArgs = [] then ["Go!"] else cmdArgs) ∧
      LoopImprover.mainArgs (prog :: cmdArgs)
        = some (if cmdArgs = [] then ["Recursion"] else cmdArgs) ∧
      ParallelPerspectives.mainArgs (prog :: cmdArgs)
        = some (if cmdArgs = [] then ["Artificial Intelligence"] else cmdArgs) ∧
      GenerateArtifact.mainArgs (prog :: cmdArgs)
        = some (if cmdArgs = [] then ["Write a very short report about goldfish."]
            else cmdArgs) ∧
      HumanInTheLoop.mainArgs (prog :: cmdArgs)
        = some (if cmdArgs = [] then ["Please delete all my files."] else cmdArgs)) ∧
    (SequentialJokes.mainArgs (prog :: cmdArgs) ≠ some [] ∧
      LoopImprover.mainArgs (prog :: cmdArgs) ≠ some [] ∧
      ParallelPerspectives.mainArgs (prog :: cmdArgs) ≠ some [] ∧
      GenerateArtifact.mainArgs (prog :: cmdArgs) ≠ some [] ∧
      HumanInTheLoop.mainArgs (prog :: cmdArgs) ≠ some []) := by
  cases cmdArgs with
  | nil =>
    simp [SequentialJokes.mainArgs, LoopImprover.mainArgs, ParallelPerspectives.mainArgs,
      GenerateArtifact.mainArgs, HumanInTheLoop.mainArgs, argsFromOne]
  | cons a rest =>
    simp [SequentialJokes.mainArgs, LoopImprover.mainArgs, ParallelPerspectives.mainArgs,
      GenerateArtifact.mainArgs, HumanInTheLoop.mainArgs, argsFromOne]

/-- Witness of C13: the joke program started without arguments gets its default
prompt, the loop program started with two arguments gets them unchanged. -/
theorem mainArgs_given_or_default_witness :
    SequentialJokes.mainArgs ["sequential_jokes"] = some ["Go!"] ∧
    LoopImprover.mainArgs ["loop_improver", "Fractals", "please"]
      = some ["Fractals", "please"] :=
  ⟨(mainArgs_given_or_default "sequential_jokes" []).1.1.trans (by decide),
    (mainArgs_given_or_default "loop_improver" ["Fractals", "please"]).1.2.1.trans
      (by decide)⟩

end Launcher
